import Mathlib

/-!
Verification development for the check-versions pipeline (src/main.rs).

The program fetches `package-lock.json` from a list of GitHub repositories
with bounded concurrency, extracts one package's locked version from the
lockfile (two incompatible schema shapes), and prints one report row per
repository in input order.

The embedding below translates the pieces of `main.rs` the claims are
about:
 * the serde-derived structs `PartialPackageLockJson`, `PackageLockJsonV1`,
   `PackageLockJson`, `Packages` (lines 16-45), modelled over a JSON value
   AST (the textual JSON parser and the UTF-8 decoder belong to external
   crates `serde_json` / `core::str`, so their outcomes are represented by
   the `Payload` constructors);
 * the per-response resolver closure passed to `map_ok` (lines 111-171),
   which returns a plain `String` ("-------" for every non-found case) and
   writes diagnostics with `eprintln!` (stderr);
 * the spawned fetch task (lines 101-107): the `404` diagnostic written
   with `println!` (stdout), the body returned for any status;
 * the request builder (lines 91-99), reading `GHP_TOKEN` from the process
   environment each time it runs, `unwrap` on a missing variable modelled
   as `none` (panic);
 * the report loop (lines 173-182): `split('/')` and the panicking index
   `repos[1]`, modelled as `none` on out-of-bounds;
 * the `stream::iter(..).map(..).buffered(PARALLEL_REQUESTS)` scheduler
   (lines 89, 110): an operational model with an explicit in-flight buffer
   and an adversarial completion schedule.
-/

namespace CheckVersions

/-- JSON value AST: the shape `serde_json` hands to the derived
deserializers. Objects keep their entries in textual order (duplicate keys
are possible, as in a JSON text). -/
inductive Json where
  | null
  | bool (b : Bool)
  | num (n : Int)
  | str (s : String)
  | arr (elems : List Json)
  | obj (fields : List (String × Json))

/-- Outcome of the two external library steps the resolver starts with:
`str::from_utf8` (line 115) and the fact that `serde_json` can parse the
text at all. `notUtf8` stands for bytes that are not valid UTF-8, `notJson`
for valid UTF-8 that is not valid JSON, and `json v` for a payload that
parses to the value `v`. -/
inductive Payload where
  | notUtf8
  | notJson
  | json (v : Json)

/-- Output channel of a printed line: `println!` writes to stdout,
`eprintln!` to stderr. -/
inductive Channel where
  | stdout
  | stderr
deriving DecidableEq

/-- serde struct `Packages { version: Option<String> }` (lines 22-26). -/
structure Packages where
  version : Option String
deriving DecidableEq

/-- serde struct `PartialPackageLockJson { lockfile_version: Option<i32> }`
(lines 40-45, field renamed from `lockfileVersion`). -/
structure PartialPackageLockJson where
  lockfile_version : Option Int
deriving DecidableEq

/-- serde struct `PackageLockJsonV1 { dependencies: HashMap<String, Packages> }`
(lines 34-38); the HashMap is carried as its key-value list. -/
structure PackageLockJsonV1 where
  dependencies : List (String × Packages)
deriving DecidableEq

/-- serde struct `PackageLockJson { packages: HashMap<String, Packages> }`
(lines 28-32). -/
structure PackageLockJson where
  packages : List (String × Packages)
deriving DecidableEq

/-- Extraction of a struct field from an object's entry list, with serde's
rules for a derived struct: unknown fields are ignored, a known field seen
twice is a "duplicate field" error (`Except.error`), a field seen once
yields its value, a field never seen yields `none`. -/
def fieldOnce (fields : List (String × Json)) (name : String) : Except Unit (Option Json) :=
  match fields.filter (fun kv => kv.1 == name) with
  | [] => Except.ok none
  | [kv] => Except.ok (some kv.2)
  | _ => Except.error ()

/-- serde deserialization of `PartialPackageLockJson`: any JSON object is
accepted (unknown fields ignored); `lockfileVersion`, when present, must be
`null` or an integer in `i32` range. `none` is a deserialization error. -/
def parsePartial : Json → Option PartialPackageLockJson
  | Json.obj fields =>
    match fieldOnce fields "lockfileVersion" with
    | Except.error _ => none
    | Except.ok none => some ⟨none⟩
    | Except.ok (some Json.null) => some ⟨none⟩
    | Except.ok (some (Json.num n)) =>
      if -(2 ^ 31) ≤ n ∧ n < 2 ^ 31 then some ⟨some n⟩ else none
    | Except.ok (some _) => none
  | _ => none

/-- serde deserialization of `Packages`: any JSON object; `version`, when
present, must be `null` or a string. -/
def parsePackages : Json → Option Packages
  | Json.obj fields =>
    match fieldOnce fields "version" with
    | Except.error _ => none
    | Except.ok none => some ⟨none⟩
    | Except.ok (some Json.null) => some ⟨none⟩
    | Except.ok (some (Json.str s)) => some ⟨some s⟩
    | Except.ok (some _) => none
  | _ => none

/-- One `HashMap::insert`: replace the binding when the key is present,
append otherwise. -/
def insertAssoc (m : List (String × Packages)) (k : String) (v : Packages) :
    List (String × Packages) :=
  if m.any (fun kv => kv.1 == k) then
    m.map (fun kv => if kv.1 == k then (k, v) else kv)
  else
    m ++ [(k, v)]

/-- serde deserialization of `HashMap<String, Packages>` from a JSON value:
the value must be an object, every entry's value must deserialize as
`Packages`, and entries are inserted in order (a duplicate key keeps the
last value, as `HashMap::insert` does). -/
def parsePackagesMap (j : Json) : Option (List (String × Packages)) :=
  match j with
  | Json.obj fields =>
    (fields.mapM (fun kv => (parsePackages kv.2).map (fun p => (kv.1, p)))).map
      (fun entries => entries.foldl (fun m kv => insertAssoc m kv.1 kv.2) [])
  | _ => none

/-- `HashMap::get` on the list carrying the map. -/
def mapGet (m : List (String × Packages)) (k : String) : Option Packages :=
  m.lookup k

/-- serde deserialization of `PackageLockJsonV1`: object with the required
field `dependencies`, itself a `HashMap<String, Packages>`. -/
def parseV1 (j : Json) : Option PackageLockJsonV1 :=
  match j with
  | Json.obj fields =>
    match fieldOnce fields "dependencies" with
    | Except.ok (some dj) => (parsePackagesMap dj).map PackageLockJsonV1.mk
    | _ => none
  | _ => none

/-- serde deserialization of `PackageLockJson`: object with the required
field `packages`, itself a `HashMap<String, Packages>`. -/
def parseV2Plus (j : Json) : Option PackageLockJson :=
  match j with
  | Json.obj fields =>
    match fieldOnce fields "packages" with
    | Except.ok (some pj) => (parsePackagesMap pj).map PackageLockJson.mk
    | _ => none
  | _ => none

/-- `let not_found = String::from("-------")` (line 112). -/
def not_found : String := "-------"

/-- The resolver closure passed to `map_ok` (lines 111-171), from the point
where the body bytes are in hand: first component is the `String` the
closure returns, second the diagnostic lines it writes with `eprintln!`
(all on stderr). Every branch of the source returns a value; no error
leaves the closure. -/
def resolveBody (package_name : String) (p : Payload) : String × List (Channel × String) :=
  match p with
  | Payload.notUtf8 => (not_found, [(Channel.stderr, "Error converting body to UTF-8")])
  | Payload.notJson => (not_found, [(Channel.stderr, "Error parsing lockfile version")])
  | Payload.json body =>
    match parsePartial body with
    | none => (not_found, [(Channel.stderr, "Error parsing lockfile version")])
    | some envelope =>
      if envelope.lockfile_version = some 1 then
        match parseV1 body with
        | none => (not_found, [(Channel.stderr, "Error")])
        | some package_lock_json_v1 =>
          match mapGet package_lock_json_v1.dependencies package_name with
          | some package =>
            match package.version with
            | some version => (version, [])
            | none => (not_found, [])
          | none => (not_found, [])
      else
        match parseV2Plus body with
        | none => (not_found, [(Channel.stderr, "Error")])
        | some package_lock_json =>
          match mapGet package_lock_json.packages ("node_modules/" ++ package_name) with
          | some package =>
            match package.version with
            | some version => (version, [])
            | none => (not_found, [])
          | none => (not_found, [])

/-- The spec's `VersionResult` sum type: `Found(versionString)` |
`NotFound` | `Unreadable` (spec section 3). -/
inductive VersionResult where
  | found (version : String)
  | notFound
  | unreadable
deriving DecidableEq

/-- Resolver following the words of spec section 4.3, kept separate from
`resolveBody` (which is translated from the source) so the two can be
compared: decode failure or parse failure at either pass is `unreadable`;
`lockfileVersion` present and equal to 1 selects the V1 shape (lookup by
bare package name), otherwise the V2Plus shape (lookup by
`node_modules/<name>`); a package present with a version is `found`, and
present without a version, or absent, is `notFound`. -/
def specResolve (package_name : String) (p : Payload) : VersionResult :=
  match p with
  | Payload.notUtf8 => VersionResult.unreadable
  | Payload.notJson => VersionResult.unreadable
  | Payload.json body =>
    match parsePartial body with
    | none => VersionResult.unreadable
    | some envelope =>
      if envelope.lockfile_version = some 1 then
        match parseV1 body with
        | none => VersionResult.unreadable
        | some v1 =>
          match mapGet v1.dependencies package_name with
          | some package =>
            match package.version with
            | some version => VersionResult.found version
            | none => VersionResult.notFound
          | none => VersionResult.notFound
      else
        match parseV2Plus body with
        | none => VersionResult.unreadable
        | some lock =>
          match mapGet lock.packages ("node_modules/" ++ package_name) with
          | some package =>
            match package.version with
            | some version => VersionResult.found version
            | none => VersionResult.notFound
          | none => VersionResult.notFound

/-- How a `VersionResult` shows up in the report: the version string, or
the fixed seven-dash placeholder (spec section 4.4). -/
def display : VersionResult → String
  | VersionResult.found version => version
  | VersionResult.notFound => not_found
  | VersionResult.unreadable => not_found

/-- The string the resolver closure returns is exactly the display form of
the spec-level result: the source keeps no sum type, only the string. -/
theorem resolveBody_displays (package_name : String) (p : Payload) :
    (resolveBody package_name p).1 = display (specResolve package_name p) := by
  cases p with
  | notUtf8 => rfl
  | notJson => rfl
  | json body =>
    simp only [resolveBody, specResolve]
    cases parsePartial body with
    | none => rfl
    | some envelope =>
      by_cases h : envelope.lockfile_version = some 1
      · simp only [h, if_true]
        cases parseV1 body with
        | none => rfl
        | some v1 =>
          dsimp only
          cases mapGet v1.dependencies package_name with
          | none => rfl
          | some package =>
            dsimp only
            cases package.version <;> rfl
      · simp only [h, if_false]
        cases parseV2Plus body with
        | none => rfl
        | some lock =>
          dsimp only
          cases mapGet lock.packages ("node_modules/" ++ package_name) with
          | none => rfl
          | some package =>
            dsimp only
            cases package.version <;> rfl

/-- One item of the stream after `buffered` (lines 101-110): the spawned
task either panicked (`tokio::task::JoinError`) or ran to completion with
the `Result<Bytes, hyper::Error>` of `client.request(..)` / `body::to_bytes`
(a transport failure is the `Except.error` case, propagated by the `?` on
line 102). -/
inductive TaskItem where
  | joinError
  | fetched (result : Except Unit Payload)

/-- The `map_ok` stage applied to one completed task (lines 111-114).
`map_ok` passes a `JoinError` item through unchanged; on a completed task
it runs the resolver closure, whose first statement is
`body.expect("error: no body")`: when the task's result is a transport
error this `expect` panics in the main task, modelled as `none` (the
program aborts). -/
def mapOkStage (package_name : String) : TaskItem → Option (Except Unit String)
  | TaskItem.joinError => some (Except.error ())
  | TaskItem.fetched (Except.error _) => none
  | TaskItem.fetched (Except.ok body) =>
    some (Except.ok (resolveBody package_name body).1)

/-- The whole batch through the `map_ok` stage and `collect` (line 173): a
panic in the stage aborts the entire program, so the batch yields `none` as
soon as any single item carries a transport error — no result list is
produced at all. -/
def processBatch (package_name : String) (items : List TaskItem) :
    Option (List (Except Unit String)) :=
  items.mapM (mapOkStage package_name)

/-- Text of the 404 diagnostic, `println!("{:?}: {:?}", res.status(), uri)`
(line 104). -/
def statusDiag (status : Nat) (uri : String) : String :=
  toString status ++ ": " ++ uri

/-- The spawned fetch task after the response arrived with `status` and
`body` (lines 102-106): the diagnostic lines it prints — `println!` on
line 104 writes to stdout, only for a 404 — together with the value the
task returns; the body is returned for any status, a non-2xx status is
never turned into an error. -/
def fetchTask (status : Nat) (uri : String) (body : Payload) :
    List (Channel × String) × Except Unit Payload :=
  ((if status = 404 then [(Channel.stdout, statusDiag status uri)] else []),
   Except.ok body)

/-- Channel of the report rows: `println!("{}\t: {}", ..)` on line 178
writes to stdout. -/
def reportRowChannel : Channel := Channel.stdout

/-- Channel of the `JoinError` diagnostic: `eprintln!("JoinError: {}", e)`
on line 180 writes to stderr. -/
def joinErrorDiagChannel : Channel := Channel.stderr

/-- The request a single pass of the `.map` closure builds (lines 91-99). -/
structure RequestModel where
  method : String
  uri : String
  headers : List (String × String)
deriving DecidableEq

/-- One pass of the `.map` closure over a URI (lines 90-99): the closure
calls `env::var("GHP_TOKEN")` — recorded as one environment read in the
first component — and `.unwrap()`s it; with the variable unset the unwrap
panics, modelled as `none`. The closure runs once per URI when the stream
is polled, so the read happens on every request build, inside dispatch. -/
def buildRequest (ghp_token : Option String) (uri : String) :
    List String × Option RequestModel :=
  (["GHP_TOKEN"],
   ghp_token.map fun tok =>
     { method := "GET"
       uri := uri
       headers := [("Authorization", "token " ++ tok),
                   ("Accept", "application/vnd.github.raw"),
                   ("X-Github-Api-Version", "2022-11-28"),
                   ("User-Agent", "check-versions")] })

/-- The dispatch stage over the whole URI list: every URI goes through
`buildRequest`, and the environment reads of all passes are concatenated
in order. -/
def dispatchRequests (ghp_token : Option String) : List String → List String × List (Option RequestModel)
  | [] => ([], [])
  | uri :: rest =>
    let r := dispatchRequests ghp_token rest
    ((buildRequest ghp_token uri).1 ++ r.1, (buildRequest ghp_token uri).2 :: r.2)

/-- `str::split` on one character, as `json[i].split('/').collect()` uses
it (line 177): `"a/b"` gives `["a","b"]`, `"abc"` gives `["abc"]`, and a
separator at the edge yields an empty piece. -/
def splitChar (sep : Char) : List Char → List (List Char)
  | [] => [[]]
  | c :: rest =>
    let r := splitChar sep rest
    if c = sep then [] :: r
    else
      match r with
      | [] => [[c]]
      | g :: gs => (c :: g) :: gs

/-- One report row (lines 176-178): split the identifier on `/` and print
`"{version}\t: {repos[1]}"`. The index `repos[1]` is an unchecked vector
index: when the split has fewer than two pieces the program panics
(index out of bounds), modelled as `none`. -/
def reportLine (repo : List Char) (version : String) : Option String :=
  let repos := splitChar '/' repo
  (repos.get? 1).map fun name => version ++ "\t: " ++ String.mk name

/-- The spec's V1 example payload,
`{"lockfileVersion":1,"dependencies":{"foo":{"version":"1.2.3"}}}`. -/
def v1Example : Json :=
  Json.obj [("lockfileVersion", Json.num 1),
            ("dependencies", Json.obj [("foo", Json.obj [("version", Json.str "1.2.3")])])]

/-- The spec's V2Plus example payload,
`{"packages":{"node_modules/foo":{"version":"2.0.0"}}}` (no
`lockfileVersion`). -/
def v2Example : Json :=
  Json.obj [("packages", Json.obj [("node_modules/foo", Json.obj [("version", Json.str "2.0.0")])])]

/-- A valid V2Plus payload in which the target package is absent:
`{"packages":{}}`. -/
def payloadAbsent : Json := Json.obj [("packages", Json.obj [])]

/-- A valid V2Plus payload whose recorded version string is literally the
placeholder: `{"packages":{"node_modules/foo":{"version":"-------"}}}`. -/
def payloadDashVersion : Json :=
  Json.obj [("packages", Json.obj [("node_modules/foo", Json.obj [("version", Json.str "-------")])])]

/-- Every diagnostic list the resolver closure produces is empty or a
single stderr line. -/
theorem resolveBody_diag_shape (package_name : String) (p : Payload) :
    (resolveBody package_name p).2 = [] ∨
      ∃ m, (resolveBody package_name p).2 = [(Channel.stderr, m)] := by
  cases p with
  | notUtf8 => exact Or.inr ⟨_, rfl⟩
  | notJson => exact Or.inr ⟨_, rfl⟩
  | json body =>
    simp only [resolveBody]
    cases parsePartial body with
    | none => exact Or.inr ⟨_, rfl⟩
    | some envelope =>
      by_cases h : envelope.lockfile_version = some 1
      · simp only [h, if_true]
        cases parseV1 body with
        | none => exact Or.inr ⟨_, rfl⟩
        | some v1 =>
          dsimp only
          cases mapGet v1.dependencies package_name with
          | none => exact Or.inl rfl
          | some package =>
            dsimp only
            cases package.version with
            | none => exact Or.inl rfl
            | some version => exact Or.inl rfl
      · simp only [h, if_false]
        cases parseV2Plus body with
        | none => exact Or.inr ⟨_, rfl⟩
        | some lock =>
          dsimp only
          cases mapGet lock.packages ("node_modules/" ++ package_name) with
          | none => exact Or.inl rfl
          | some package =>
            dsimp only
            cases package.version with
            | none => exact Or.inl rfl
            | some version => exact Or.inl rfl

/-- With the separator absent, `split` yields the whole input as its only
piece. -/
theorem splitChar_not_mem (sep : Char) (cs : List Char) (h : sep ∉ cs) :
    splitChar sep cs = [cs] := by
  induction cs with
  | nil => rfl
  | cons c rest ih =>
    have hc : ¬c = sep := fun hcs => h (hcs ▸ List.mem_cons_self c rest)
    have hrest : sep ∉ rest := fun hm => h (List.mem_cons_of_mem c hm)
    simp only [splitChar, if_neg hc, ih hrest]

/-- `split` never yields an empty list of pieces. -/
theorem splitChar_ne_nil (sep : Char) (cs : List Char) : splitChar sep cs ≠ [] := by
  induction cs with
  | nil => simp [splitChar]
  | cons c rest ih =>
    simp only [splitChar]
    by_cases hc : c = sep
    · simp [hc]
    · simp only [if_neg hc]
      cases hr : splitChar sep rest with
      | nil => simp
      | cons g gs => simp

/-- With the separator present, `split` yields at least two pieces. -/
theorem splitChar_mem (sep : Char) (cs : List Char) (h : sep ∈ cs) :
    2 ≤ (splitChar sep cs).length := by
  induction cs with
  | nil => cases h
  | cons c rest ih =>
    simp only [splitChar]
    by_cases hc : c = sep
    · simp only [if_pos hc, List.length_cons]
      have : splitChar sep rest ≠ [] := splitChar_ne_nil sep rest
      have : 1 ≤ (splitChar sep rest).length := by
        cases hr : splitChar sep rest with
        | nil => exact absurd hr this
        | cons g gs => simp
      omega
    · have hrest : sep ∈ rest := by
        cases List.mem_cons.mp h with
        | inl h1 => exact absurd h1.symm hc
        | inr h2 => exact h2
      have h2 := ih hrest
      simp only [if_neg hc]
      cases hr : splitChar sep rest with
      | nil => exact absurd hr (splitChar_ne_nil sep rest)
      | cons g gs =>
        rw [hr] at h2
        simpa using h2

/-- C2 (code_bug evaluation): a transport-level failure on one fetch does
abort the whole batch. `mapOkStage` turns a completed fetch into the
resolved row string and passes a task panic (`JoinError`) through as a
reportable error line, but on a transport error (`hyper::Error`) the
`body.expect("error: no body")` call panics in the main task — modelled as
`none` — so a batch holding one transport error next to a well-formed fetch
produces no result list at all, while the same well-formed fetch alone
yields `Found("2.0.0")`. This contradicts the claim that every
per-identifier failure below the fatal tier is caught and converted to a
reportable value. -/
theorem c2_transport_error_aborts_batch :
    mapOkStage "foo" (TaskItem.fetched (Except.ok (Payload.json v2Example))) =
      some (Except.ok "2.0.0") ∧
    mapOkStage "foo" TaskItem.joinError = some (Except.error ()) ∧
    mapOkStage "foo" (TaskItem.fetched (Except.error ())) = none ∧
    processBatch "foo"
      [TaskItem.fetched (Except.ok (Payload.json v2Example)),
       TaskItem.fetched (Except.error ())] = none ∧
    processBatch "foo" [TaskItem.fetched (Except.ok (Payload.json v2Example))] =
      some [Except.ok "2.0.0"] :=
  ⟨rfl, rfl, rfl, rfl, rfl⟩

/-- C3 (counterexample): dispatching two requests reads `GHP_TOKEN` from
the process environment twice — once per request build, inside the
dispatch path — refuting the claim that the credential is read exactly
once during setup before any dispatch and never re-read per request. -/
theorem c3_counterexample :
    (dispatchRequests (some "tok") ["u1", "u2"]).1 = ["GHP_TOKEN", "GHP_TOKEN"] ∧
    (dispatchRequests (some "tok") ["u1", "u2"]).1.length ≠ 1 := by
  constructor
  · rfl
  · decide

/-- C3 (amended): the bearer credential is read from the environment once
per request, when the `.map` closure builds that request during dispatch;
every build attaches `Authorization: token <credential>`; with the
variable unset the `unwrap` panics at request-build time (modelled
`none`), so a missing credential still aborts the run, but from inside
dispatch rather than at setup. -/
theorem c3_credential_read_per_request (ghp_token : Option String) (uris : List String) :
    (dispatchRequests ghp_token uris).1.length = uris.length ∧
    (∀ uri, (buildRequest ghp_token uri).1 = ["GHP_TOKEN"]) ∧
    (∀ uri, (buildRequest none uri).2 = none) ∧
    (∀ tok uri, (buildRequest (some tok) uri).2 =
      some { method := "GET"
             uri := uri
             headers := [("Authorization", "token " ++ tok),
                         ("Accept", "application/vnd.github.raw"),
                         ("X-Github-Api-Version", "2022-11-28"),
                         ("User-Agent", "check-versions")] }) := by
  refine ⟨?_, fun uri => rfl, fun uri => rfl, fun tok uri => rfl⟩
  induction uris with
  | nil => rfl
  | cons u rest ih => simp [dispatchRequests, buildRequest, ih]

/-- C4: on a payload whose envelope parse reports `lockfileVersion = 1`,
the resolver takes the V1 branch: a failing V1 re-parse is `Unreadable`; a
successful one looks the target package up by bare name in `dependencies`,
giving `Found(version)` when the entry has a version, `NotFound` when the
entry lacks a version or is absent; the string the source closure returns
is the display form of that result; and on the spec's example payload with
target `foo` the result is `Found("1.2.3")`. -/
theorem c4_v1_branch (package_name : String) (v : Json)
    (hv : parsePartial v = some ⟨some 1⟩) :
    (parseV1 v = none →
      specResolve package_name (Payload.json v) = VersionResult.unreadable) ∧
    (∀ deps, parseV1 v = some ⟨deps⟩ →
      (∀ pkg version, mapGet deps package_name = some pkg → pkg.version = some version →
        specResolve package_name (Payload.json v) = VersionResult.found version) ∧
      (∀ pkg, mapGet deps package_name = some pkg → pkg.version = none →
        specResolve package_name (Payload.json v) = VersionResult.notFound) ∧
      (mapGet deps package_name = none →
        specResolve package_name (Payload.json v) = VersionResult.notFound)) ∧
    (resolveBody package_name (Payload.json v)).1 =
      display (specResolve package_name (Payload.json v)) ∧
    (specResolve "foo" (Payload.json v1Example) = VersionResult.found "1.2.3" ∧
      (resolveBody "foo" (Payload.json v1Example)).1 = "1.2.3") := by
  refine ⟨?_, ?_, resolveBody_displays package_name (Payload.json v), by decide, by decide⟩
  · intro h1
    simp [specResolve, hv, h1]
  · intro deps h2
    refine ⟨?_, ?_, ?_⟩
    · intro pkg version h3 h4
      simp [specResolve, hv, h2, h3, h4]
    · intro pkg h3 h4
      simp [specResolve, hv, h2, h3, h4]
    · intro h3
      simp [specResolve, hv, h2, h3]

/-- C4 witness: the theorem applied to the spec's example payload, whose
envelope indeed reports version 1, and to the entry the example holds. -/
theorem c4_v1_branch_witness :
    specResolve "foo" (Payload.json v1Example) = VersionResult.found "1.2.3" :=
  ((c4_v1_branch "foo" v1Example (by decide)).2.1
      [("foo", ⟨some "1.2.3"⟩)] (by decide)).1 ⟨some "1.2.3"⟩ "1.2.3" (by decide) rfl


/-- C5: on a payload whose envelope parse reports `lockfileVersion` absent
or different from 1, the resolver takes the V2Plus branch: a failing
re-parse is `Unreadable`; a successful one looks the key
`node_modules/<package name>` up in `packages`, giving `Found(version)`
when the entry has a version, `NotFound` when the entry lacks a version or
is absent; the string the source closure returns is the display form; and
on the spec's example payload (no `lockfileVersion`) with target `foo` the
result is `Found("2.0.0")`. -/
theorem c5_v2plus_branch (package_name : String) (v : Json)
    (envelope : PartialPackageLockJson)
    (hv : parsePartial v = some envelope)
    (hne : envelope.lockfile_version ≠ some 1) :
    (parseV2Plus v = none →
      specResolve package_name (Payload.json v) = VersionResult.unreadable) ∧
    (∀ pkgs, parseV2Plus v = some ⟨pkgs⟩ →
      (∀ pkg version,
        mapGet pkgs ("node_modules/" ++ package_name) = some pkg →
        pkg.version = some version →
        specResolve package_name (Payload.json v) = VersionResult.found version) ∧
      (∀ pkg,
        mapGet pkgs ("node_modules/" ++ package_name) = some pkg →
        pkg.version = none →
        specResolve package_name (Payload.json v) = VersionResult.notFound) ∧
      (mapGet pkgs ("node_modules/" ++ package_name) = none →
        specResolve package_name (Payload.json v) = VersionResult.notFound)) ∧
    (resolveBody package_name (Payload.json v)).1 =
      display (specResolve package_name (Payload.json v)) ∧
    (specResolve "foo" (Payload.json v2Example) = VersionResult.found "2.0.0" ∧
      (resolveBody "foo" (Payload.json v2Example)).1 = "2.0.0") := by
  refine ⟨?_, ?_, resolveBody_displays package_name (Payload.json v), by decide, by decide⟩
  · intro h1
    simp [specResolve, hv, hne, h1]
  · intro pkgs h2
    refine ⟨?_, ?_, ?_⟩
    · intro pkg version h3 h4
      simp [specResolve, hv, hne, h2, h3, h4]
    · intro pkg h3 h4
      simp [specResolve, hv, hne, h2, h3, h4]
    · intro h3
      simp [specResolve, hv, hne, h2, h3]

/-- C5 witness: the theorem applied to the spec's example payload, whose
envelope has no `lockfileVersion`, and to the entry the example holds. -/
theorem c5_v2plus_branch_witness :
    specResolve "foo" (Payload.json v2Example) = VersionResult.found "2.0.0" :=
  ((c5_v2plus_branch "foo" v2Example ⟨none⟩ (by decide) (by decide)).2.1
      [("node_modules/foo", ⟨some "2.0.0"⟩)] (by decide)).1
    ⟨some "2.0.0"⟩ "2.0.0" (by decide) rfl

/-- C6: bytes that are not valid UTF-8, and valid UTF-8 that is not valid
JSON, both resolve to `Unreadable` — the source closure returns the
placeholder string and emits one stderr diagnostic — and on every input
whatsoever the closure returns the display form of one of the three
`VersionResult` variants, so no error leaves the resolver's boundary. -/
theorem c6_unreadable_isolation (package_name : String) :
    (specResolve package_name Payload.notUtf8 = VersionResult.unreadable ∧
      (resolveBody package_name Payload.notUtf8).1 = not_found ∧
      (resolveBody package_name Payload.notUtf8).2 =
        [(Channel.stderr, "Error converting body to UTF-8")]) ∧
    (specResolve package_name Payload.notJson = VersionResult.unreadable ∧
      (resolveBody package_name Payload.notJson).1 = not_found ∧
      (resolveBody package_name Payload.notJson).2 =
        [(Channel.stderr, "Error parsing lockfile version")]) ∧
    (∀ p, (resolveBody package_name p).1 = display (specResolve package_name p)) :=
  ⟨⟨rfl, rfl, rfl⟩, ⟨rfl, rfl, rfl⟩, fun p => resolveBody_displays package_name p⟩

/-- C7 (counterexample): an identifier with no `/` at all — here `react` —
does not produce a malformed display line: `repos[1]` is out of bounds and
the program panics (modelled `none`), a fatal error. -/
theorem c7_counterexample :
    ('/' : Char) ∉ ['r', 'e', 'a', 'c', 't'] ∧
    reportLine ['r', 'e', 'a', 'c', 't'] "1.2.3" = none := by
  constructor
  · decide
  · rfl

/-- C7 (amended): the core never validates the identifier; an identifier
holding at least one `/` always yields a display line (malformed when the
identifier is not of the `owner/name` shape — the line shows the second
`/`-piece), but an identifier with no `/` crashes the report loop with an
out-of-bounds index panic instead of producing a line. -/
theorem c7_split_behavior (repo : List Char) (version : String) :
    (('/' : Char) ∉ repo → reportLine repo version = none) ∧
    (('/' : Char) ∈ repo →
      ∃ name, reportLine repo version = some (version ++ "\t: " ++ String.mk name)) := by
  constructor
  · intro h
    simp [reportLine, splitChar_not_mem '/' repo h]
  · intro h
    have h2 := splitChar_mem '/' repo h
    have h1 : 1 < (splitChar '/' repo).length := by omega
    refine ⟨(splitChar '/' repo).get ⟨1, h1⟩, ?_⟩
    simp [reportLine, List.getElem?_eq_getElem h1]

/-- C7 witness: the amended theorem applied to an identifier without `/`
(panic) and to one with a single `/` (a line is produced). -/
theorem c7_split_behavior_witness :
    reportLine ['r', 'e', 'a', 'c', 't'] "1.0.0" = none ∧
    (∃ name, reportLine ['a', '/', 'b'] "1.0.0" = some ("1.0.0" ++ "\t: " ++ String.mk name)) :=
  ⟨(c7_split_behavior ['r', 'e', 'a', 'c', 't'] "1.0.0").1 (by decide),
   (c7_split_behavior ['a', '/', 'b'] "1.0.0").2 (by decide)⟩

/-- C8 (counterexample): the 404 diagnostic is written with `println!`
(line 104), i.e. to stdout — the very channel the tabular report rows use
(line 178) — refuting the claim that all diagnostics go to a channel
distinct from the report's. -/
theorem c8_counterexample :
    (fetchTask 404 "https://api.github.com/repos/a/b/contents/package-lock.json"
        Payload.notJson).1 =
      [(Channel.stdout,
        statusDiag 404 "https://api.github.com/repos/a/b/contents/package-lock.json")] ∧
    reportRowChannel = Channel.stdout :=
  ⟨rfl, rfl⟩

/-- C8 (amended): a 404 is surfaced as a logged diagnostic and is not
thrown — the task still returns the body, and no status other than 404 is
logged — and the resolver's parse diagnostics and the `JoinError`
diagnostic do go to stderr, distinct from the report's stdout; but the 404
diagnostic itself goes to stdout, the same channel as the tabular
report. -/
theorem c8_diag_channels (status : Nat) (uri : String) (body : Payload)
    (package_name : String) (p : Payload) (d : Channel × String) :
    (fetchTask status uri body).2 = Except.ok body ∧
    (fetchTask 404 uri body).1 = [(Channel.stdout, statusDiag 404 uri)] ∧
    (status ≠ 404 → (fetchTask status uri body).1 = []) ∧
    (d ∈ (resolveBody package_name p).2 → d.1 = Channel.stderr) ∧
    joinErrorDiagChannel = Channel.stderr ∧
    reportRowChannel = Channel.stdout := by
  refine ⟨rfl, by simp [fetchTask], ?_, ?_, rfl, rfl⟩
  · intro h
    simp [fetchTask, h]
  · intro hmem
    rcases resolveBody_diag_shape package_name p with h | ⟨m, h⟩
    · rw [h] at hmem
      cases hmem
    · rw [h] at hmem
      rcases List.mem_singleton.mp hmem with rfl
      rfl

/-- C8 witness: the amended theorem applied at a non-404 status and at a
concrete stderr diagnostic of the resolver. -/
theorem c8_diag_channels_witness :
    (fetchTask 200 "u" Payload.notJson).1 = [] ∧
    ((Channel.stderr, "Error converting body to UTF-8") : Channel × String).1 =
      Channel.stderr := by
  have h := c8_diag_channels 200 "u" Payload.notJson "foo" Payload.notUtf8
    (Channel.stderr, "Error converting body to UTF-8")
  exact ⟨h.2.2.1 (by decide), h.2.2.2.1 (by decide)⟩

/-- C10: the per-repository outcome is a plain string — the source closure
returns `String`, not a sum type — and `NotFound` (valid lockfile, package
absent), `Unreadable` (unparsable payload) and a genuinely found version
whose string is exactly `"-------"` all return the identical string, so
their report rows for the same repository are identical, although
`specResolve` distinguishes the three variants. -/
theorem c10_report_collapse :
    specResolve "foo" (Payload.json payloadAbsent) = VersionResult.notFound ∧
    specResolve "foo" Payload.notJson = VersionResult.unreadable ∧
    specResolve "foo" (Payload.json payloadDashVersion) = VersionResult.found "-------" ∧
    (resolveBody "foo" (Payload.json payloadAbsent)).1 = "-------" ∧
    (resolveBody "foo" Payload.notJson).1 = "-------" ∧
    (resolveBody "foo" (Payload.json payloadDashVersion)).1 = "-------" ∧
    reportLine ['o', 'w', 'n', 'e', 'r', '/', 'r', 'e', 'p', 'o']
        (resolveBody "foo" (Payload.json payloadAbsent)).1 =
      reportLine ['o', 'w', 'n', 'e', 'r', '/', 'r', 'e', 'p', 'o']
        (resolveBody "foo" (Payload.json payloadDashVersion)).1 ∧
    reportLine ['o', 'w', 'n', 'e', 'r', '/', 'r', 'e', 'p', 'o']
        (resolveBody "foo" Payload.notJson).1 =
      reportLine ['o', 'w', 'n', 'e', 'r', '/', 'r', 'e', 'p', 'o']
        (resolveBody "foo" (Payload.json payloadDashVersion)).1 := by
  refine ⟨by decide, rfl, by decide, by decide, rfl, by decide, rfl, rfl⟩

/-- `const PARALLEL_REQUESTS: usize = 64` (line 62). -/
def PARALLEL_REQUESTS : Nat := 64

/-- State of the `buffered(PARALLEL_REQUESTS)` combinator (line 110):
`admitted` counts how many tasks have been pulled from the upstream
iterator (tasks are admitted in input order, so these are the indices
`0..admitted`), `inFlight` holds the indices of admitted tasks that have
not completed, and `done` records each completed task's `(index, result)`
pair in completion order. -/
structure BufState (R : Type) where
  admitted : Nat
  inFlight : List Nat
  done : List (Nat × R)

/-- Admission loop of `buffered`: keep pulling the next task from the
upstream (spawning its fetch) while the buffer holds fewer than `limit`
tasks and input remains. The explicit fuel (always called with
`total - admitted`) only bounds the recursion. -/
def fillAux {R : Type} (limit total : Nat) : Nat → BufState R → BufState R
  | 0, s => s
  | fuel + 1, s =>
    if s.inFlight.length < limit ∧ s.admitted < total then
      fillAux limit total fuel ⟨s.admitted + 1, s.inFlight ++ [s.admitted], s.done⟩
    else s

/-- The admission loop with enough fuel to cover the remaining input. -/
def fill {R : Type} (limit total : Nat) (s : BufState R) : BufState R :=
  fillAux limit total (total - s.admitted) s

/-- Removal of the element at a position: the removed element (when the
position is in range) and the remaining list. -/
def removeAt : List Nat → Nat → Option Nat × List Nat
  | [], _ => (none, [])
  | x :: xs, 0 => (some x, xs)
  | x :: xs, n + 1 =>
    let p := removeAt xs n
    (p.1, x :: p.2)

/-- Completion of one in-flight task, the choice made by the adversarial
schedule entry `c` (taken modulo the buffer size): the task leaves the
buffer and its `(index, result)` pair is recorded. Results are a fixed
function of the task index — the network's answer for that repository —
independent of scheduling. With an empty buffer the step is a no-op. -/
def complete {R : Type} (res : Nat → R) (s : BufState R) (c : Nat) : BufState R :=
  match removeAt s.inFlight (c % s.inFlight.length) with
  | (none, _) => s
  | (some j, rest) => ⟨s.admitted, rest, s.done ++ [(j, res j)]⟩

/-- One scheduler step: a completion chosen by the adversary, after which
`buffered` immediately refills the buffer from the remaining input. -/
def stepOne {R : Type} (limit total : Nat) (res : Nat → R) (s : BufState R) (c : Nat) :
    BufState R :=
  fill limit total (complete res s c)

/-- A whole run of the scheduler over `total` tasks: the initial fill,
then one step per entry of the adversarial completion schedule. -/
def runSched {R : Type} (limit total : Nat) (res : Nat → R) (sched : List Nat) : BufState R :=
  sched.foldl (stepOne limit total res) (fill limit total ⟨0, [], []⟩)

/-- The ordered result collection (lines 173-174): `buffered` yields
results in input order — internally it reassembles completions by original
index — and `collect` + `enumerate` pair slot `i` with input `i`. The
model reads this off as the recorded result of index `i`, for each `i` in
input order. -/
def collectOrdered {R : Type} (limit total : Nat) (res : Nat → R) (sched : List Nat) :
    List (Option R) :=
  (List.range total).map fun i => (runSched limit total res sched).done.lookup i

/-- Scheduler invariant: bookkeeping sizes agree, no task beyond the input
is admitted, every recorded result is the fixed result of its index, and
the admitted indices are exactly those in flight or done. -/
def SchedInv {R : Type} (res : Nat → R) (total : Nat) (s : BufState R) : Prop :=
  s.done.length + s.inFlight.length = s.admitted ∧
  s.admitted ≤ total ∧
  (∀ p ∈ s.done, p.2 = res p.1) ∧
  (∀ j, (j ∈ s.inFlight ∨ ∃ r, (j, r) ∈ s.done) ↔ j < s.admitted)

/-- A state is filled when no further admission is possible: the buffer is
at capacity or the input is exhausted. -/
def SchedFilled {R : Type} (limit total : Nat) (s : BufState R) : Prop :=
  ¬(s.inFlight.length < limit ∧ s.admitted < total)

theorem fillAux_done {R : Type} (limit total : Nat) :
    ∀ (fuel : Nat) (s : BufState R), (fillAux limit total fuel s).done = s.done := by
  intro fuel
  induction fuel with
  | zero => intro s; rfl
  | succ n ih =>
    intro s
    simp only [fillAux]
    split
    · exact ih _
    · rfl

theorem fillAux_inv {R : Type} (res : Nat → R) (limit total : Nat) :
    ∀ (fuel : Nat) (s : BufState R), SchedInv res total s → s.inFlight.length ≤ limit →
      SchedInv res total (fillAux limit total fuel s) ∧
      (fillAux limit total fuel s).inFlight.length ≤ limit := by
  intro fuel
  induction fuel with
  | zero => intro s hs hb; exact ⟨hs, hb⟩
  | succ n ih =>
    intro s hs hb
    simp only [fillAux]
    split
    · next hguard =>
      obtain ⟨hlen, hadm, hres, hmem⟩ := hs
      apply ih
      · refine ⟨?_, ?_, hres, ?_⟩
        · dsimp only
          simp only [List.length_append, List.length_cons, List.length_nil]
          omega
        · dsimp only
          omega
        · intro j
          dsimp only
          have base := hmem j
          constructor
          · rintro (h | h)
            · rcases List.mem_append.mp h with h1 | h1
              · have := base.mp (Or.inl h1); omega
              · have := List.mem_singleton.mp h1; omega
            · have := base.mp (Or.inr h); omega
          · intro hj
            rcases Nat.lt_succ_iff_lt_or_eq.mp hj with hj1 | hj1
            · rcases base.mpr hj1 with h | h
              · exact Or.inl (List.mem_append.mpr (Or.inl h))
              · exact Or.inr h
            · exact Or.inl (List.mem_append.mpr (Or.inr (List.mem_singleton.mpr hj1)))
      · dsimp only
        simp only [List.length_append, List.length_cons, List.length_nil]
        omega
    · exact ⟨hs, hb⟩

theorem fillAux_post {R : Type} (limit total : Nat) :
    ∀ (fuel : Nat) (s : BufState R), total - s.admitted ≤ fuel →
      SchedFilled limit total (fillAux limit total fuel s) := by
  intro fuel
  induction fuel with
  | zero =>
    intro s hf
    simp only [fillAux]
    intro hc
    omega
  | succ n ih =>
    intro s hf
    simp only [fillAux]
    split
    · next hguard => exact ih _ (by dsimp only; omega)
    · next hguard => exact hguard

theorem fill_done {R : Type} (limit total : Nat) (s : BufState R) :
    (fill limit total s).done = s.done :=
  fillAux_done limit total (total - s.admitted) s

theorem fill_inv {R : Type} (res : Nat → R) (limit total : Nat) (s : BufState R)
    (hs : SchedInv res total s) (hb : s.inFlight.length ≤ limit) :
    SchedInv res total (fill limit total s) ∧
      (fill limit total s).inFlight.length ≤ limit :=
  fillAux_inv res limit total (total - s.admitted) s hs hb

theorem fill_post {R : Type} (limit total : Nat) (s : BufState R) :
    SchedFilled limit total (fill limit total s) :=
  fillAux_post limit total (total - s.admitted) s (Nat.le_refl _)

theorem removeAt_lt : ∀ (l : List Nat) (n : Nat), n < l.length →
    ∃ j ys, removeAt l n = (some j, ys) := by
  intro l
  induction l with
  | nil => intro n h; simp at h
  | cons x xs ih =>
    intro n h
    cases n with
    | zero => exact ⟨x, xs, rfl⟩
    | succ n =>
      obtain ⟨j, ys, hj⟩ := ih n (by simpa using h)
      exact ⟨j, x :: ys, by simp [removeAt, hj]⟩

theorem removeAt_perm : ∀ (l : List Nat) (n : Nat) (j : Nat) (ys : List Nat),
    removeAt l n = (some j, ys) → l.Perm (j :: ys) := by
  intro l
  induction l with
  | nil => intro n j ys h; simp [removeAt] at h
  | cons x xs ih =>
    intro n j ys h
    cases n with
    | zero =>
      simp only [removeAt, Prod.mk.injEq, Option.some.injEq] at h
      obtain ⟨rfl, rfl⟩ := h
      exact List.Perm.refl _
    | succ n =>
      simp only [removeAt, Prod.mk.injEq] at h
      obtain ⟨h1, h2⟩ := h
      have hx : removeAt xs n = (some j, (removeAt xs n).2) := by rw [← h1]
      have hp := ih n j (removeAt xs n).2 hx
      rw [← h2]
      exact (hp.cons x).trans (List.Perm.swap j x (removeAt xs n).2)

theorem complete_inv {R : Type} (res : Nat → R) (total : Nat) (s : BufState R) (c : Nat)
    (hs : SchedInv res total s) :
    SchedInv res total (complete res s c) ∧
    (complete res s c).inFlight.length ≤ s.inFlight.length ∧
    (complete res s c).admitted = s.admitted ∧
    (s.inFlight ≠ [] → (complete res s c).done.length = s.done.length + 1) ∧
    (s.inFlight = [] → complete res s c = s) := by
  by_cases hne : s.inFlight = []
  · have hcs : complete res s c = s := by
      simp [complete, hne, removeAt]
    rw [hcs]
    exact ⟨hs, Nat.le_refl _, rfl, fun h => absurd hne h, fun _ => rfl⟩
  · have hlen0 : 0 < s.inFlight.length := List.length_pos.mpr hne
    have hk : c % s.inFlight.length < s.inFlight.length := Nat.mod_lt _ hlen0
    obtain ⟨j, ys, hj⟩ := removeAt_lt s.inFlight (c % s.inFlight.length) hk
    have hperm := removeAt_perm s.inFlight (c % s.inFlight.length) j ys hj
    have hcs : complete res s c = ⟨s.admitted, ys, s.done ++ [(j, res j)]⟩ := by
      simp [complete, hj]
    obtain ⟨hlen, hadm, hres, hmem⟩ := hs
    have hlys : s.inFlight.length = ys.length + 1 := by
      have := hperm.length_eq
      simpa using this
    have hjmem : j ∈ s.inFlight := hperm.mem_iff.mpr (List.mem_cons_self j ys)
    rw [hcs]
    refine ⟨⟨?_, hadm, ?_, ?_⟩, ?_, rfl, ?_, fun h => absurd h hne⟩
    · dsimp only
      simp only [List.length_append, List.length_cons, List.length_nil]
      omega
    · intro p hp
      dsimp only at hp
      rcases List.mem_append.mp hp with h1 | h1
      · exact hres p h1
      · rcases List.mem_singleton.mp h1 with rfl
        rfl
    · intro i
      dsimp only
      have base := hmem i
      constructor
      · rintro (h | ⟨r, hr⟩)
        · exact base.mp (Or.inl (hperm.mem_iff.mpr (List.mem_cons_of_mem j h)))
        · rcases List.mem_append.mp hr with h1 | h1
          · exact base.mp (Or.inr ⟨r, h1⟩)
          · rcases List.mem_singleton.mp h1 with h2
            have : i = j := congrArg Prod.fst h2
            exact base.mp (Or.inl (this ▸ hjmem))
      · intro hi
        rcases base.mpr hi with h | ⟨r, hr⟩
        · rcases List.mem_cons.mp (hperm.mem_iff.mp h) with h1 | h1
          · exact Or.inr ⟨res j, List.mem_append.mpr (Or.inr (h1 ▸ List.mem_singleton.mpr rfl))⟩
          · exact Or.inl h1
        · exact Or.inr ⟨r, List.mem_append.mpr (Or.inl hr)⟩
    · dsimp only
      omega
    · intro _
      dsimp only
      simp

theorem stepOne_inv {R : Type} (res : Nat → R) (limit total : Nat) (hl : 1 ≤ limit)
    (s : BufState R) (c : Nat)
    (hs : SchedInv res total s) (hf : SchedFilled limit total s)
    (hb : s.inFlight.length ≤ limit) :
    SchedInv res total (stepOne limit total res s c) ∧
    SchedFilled limit total (stepOne limit total res s c) ∧
    (stepOne limit total res s c).inFlight.length ≤ limit ∧
    (stepOne limit total res s c).done.length = min (s.done.length + 1) total := by
  obtain ⟨hc1, hc2, hc3, hc4, hc5⟩ := complete_inv res total s c hs
  by_cases hd : s.done.length < total
  · have hne : s.inFlight ≠ [] := by
      intro hemp
      have h0 : s.inFlight.length = 0 := by simp [hemp]
      obtain ⟨l1, l2, _, _⟩ := hs
      rcases Nat.lt_or_ge s.admitted total with hlt | hge
      · exact hf ⟨by omega, hlt⟩
      · omega
    obtain ⟨g1, g2⟩ := fill_inv res limit total (complete res s c) hc1 (Nat.le_trans hc2 hb)
    refine ⟨g1, fill_post limit total _, g2, ?_⟩
    rw [stepOne, fill_done, hc4 hne]
    omega
  · obtain ⟨l1, l2, l3, l4⟩ := hs
    have hemp : s.inFlight = [] := by
      apply List.length_eq_zero.mp
      omega
    have h1 : complete res s c = s := hc5 hemp
    have h2 : total - s.admitted = 0 := by omega
    have h3 : stepOne limit total res s c = s := by
      rw [stepOne, h1, fill, h2]
      rfl
    rw [h3]
    exact ⟨⟨l1, l2, l3, l4⟩, hf, hb, by omega⟩

theorem runFold_inv {R : Type} (res : Nat → R) (limit total : Nat) (hl : 1 ≤ limit) :
    ∀ (sched : List Nat) (s : BufState R),
      SchedInv res total s → SchedFilled limit total s → s.inFlight.length ≤ limit →
      SchedInv res total (sched.foldl (stepOne limit total res) s) ∧
      SchedFilled limit total (sched.foldl (stepOne limit total res) s) ∧
      (sched.foldl (stepOne limit total res) s).inFlight.length ≤ limit ∧
      (sched.foldl (stepOne limit total res) s).done.length =
        min (s.done.length + sched.length) total := by
  intro sched
  induction sched with
  | nil =>
    intro s hs hf hb
    refine ⟨hs, hf, hb, ?_⟩
    obtain ⟨l1, l2, _, _⟩ := hs
    simp only [List.foldl_nil, List.length_nil, Nat.add_zero]
    omega
  | cons c rest ih =>
    intro s hs hf hb
    obtain ⟨h1, h2, h3, h4⟩ := stepOne_inv res limit total hl s c hs hf hb
    obtain ⟨g1, g2, g3, g4⟩ := ih (stepOne limit total res s c) h1 h2 h3
    rw [List.foldl_cons]
    refine ⟨g1, g2, g3, ?_⟩
    rw [g4, h4]
    simp only [List.length_cons]
    omega

theorem runSched_inv {R : Type} (res : Nat → R) (limit total : Nat) (hl : 1 ≤ limit)
    (sched : List Nat) :
    SchedInv res total (runSched limit total res sched) ∧
    SchedFilled limit total (runSched limit total res sched) ∧
    (runSched limit total res sched).inFlight.length ≤ limit ∧
    (runSched limit total res sched).done.length = min sched.length total := by
  have hinv0 : SchedInv res total (⟨0, [], []⟩ : BufState R) := by
    refine ⟨rfl, Nat.zero_le _, ?_, ?_⟩
    · intro p hp
      cases hp
    · intro j
      simp
  obtain ⟨h1, h2⟩ := fill_inv res limit total (⟨0, [], []⟩ : BufState R) hinv0 (by simp)
  obtain ⟨g1, g2, g3, g4⟩ :=
    runFold_inv res limit total hl sched (fill limit total ⟨0, [], []⟩) h1
      (fill_post limit total _) h2
  refine ⟨g1, g2, g3, ?_⟩
  rw [runSched] at *
  rw [g4, fill_done]
  simp

theorem lookup_done {R : Type} (res : Nat → R) :
    ∀ (l : List (Nat × R)) (i : Nat), (∀ p ∈ l, p.2 = res p.1) → (∃ r, (i, r) ∈ l) →
      l.lookup i = some (res i) := by
  intro l
  induction l with
  | nil =>
    intro i _ h
    obtain ⟨r, hr⟩ := h
    cases hr
  | cons hd tl ih =>
    intro i hres h
    obtain ⟨k, v⟩ := hd
    by_cases hik : i = k
    · subst hik
      have hv : v = res i := hres (i, v) (List.mem_cons_self _ _)
      simp [List.lookup, hv]
    · have hne : (i == k) = false := by
        simpa using hik
      have h2 : ∃ r, (i, r) ∈ tl := by
        obtain ⟨r, hr⟩ := h
        rcases List.mem_cons.mp hr with heq | htl
        · injection heq with ha hb
          exact absurd ha hik
        · exact ⟨r, htl⟩
      have h3 := ih i (fun p hp => hres p (List.mem_cons_of_mem _ hp)) h2
      simpa [List.lookup, hne] using h3

theorem range_map_congr {β : Type} (n : Nat) (f g : Nat → β)
    (h : ∀ i, i < n → f i = g i) : (List.range n).map f = (List.range n).map g := by
  induction n with
  | zero => rfl
  | succ m ih =>
    rw [List.range_succ, List.map_append, List.map_append,
      ih (fun i hi => h i (by omega))]
    simp [h m (by omega)]

theorem map_getD_range {α β : Type} (g : α → β) (d : α) :
    ∀ l : List α, (List.range l.length).map (fun i => g (l.getD i d)) = l.map g := by
  intro l
  induction l with
  | nil => rfl
  | cons x xs ih =>
    rw [List.length_cons, List.range_succ_eq_map]
    simp only [List.map_cons, List.map_map]
    refine congrArg₂ List.cons rfl ?_
    exact ih

/-- C9: under any adversarial completion schedule, the scheduler never
holds more than `PARALLEL_REQUESTS` (64) tasks in flight — this covers
every instant of a run, since the schedule prefix is arbitrary — and after
every step the buffer is back at capacity unless the input is exhausted:
as soon as one task completes, the next queued item is admitted. -/
theorem c9_admission_bound (R : Type) (total : Nat) (res : Nat → R) (sched : List Nat) :
    (runSched PARALLEL_REQUESTS total res sched).inFlight.length ≤ PARALLEL_REQUESTS ∧
    ((runSched PARALLEL_REQUESTS total res sched).inFlight.length = PARALLEL_REQUESTS ∨
      (runSched PARALLEL_REQUESTS total res sched).admitted = total) := by
  obtain ⟨hinv, hfill, hb, _⟩ :=
    runSched_inv res PARALLEL_REQUESTS total (by decide) sched
  refine ⟨hb, ?_⟩
  have h1 := hinv.2.1
  by_cases hlt :
      (runSched PARALLEL_REQUESTS total res sched).inFlight.length < PARALLEL_REQUESTS
  · right
    by_contra hne
    exact hfill ⟨hlt, Nat.lt_of_le_of_ne h1 hne⟩
  · left
    omega

/-- C1: for every input list of repository identifiers and every
adversarial completion schedule that lets each fetch finish, the collected
output has exactly one slot per input, and the slot at position `i` holds
the result computed for the identifier at position `i` — output order
equals input order regardless of completion order. -/
theorem c1_order_preservation (R : Type) (inputs : List String) (f : String → R)
    (sched : List Nat) (h : sched.length = inputs.length) :
    collectOrdered PARALLEL_REQUESTS inputs.length (fun i => f (inputs.getD i "")) sched =
      inputs.map (fun ident => some (f ident)) ∧
    (collectOrdered PARALLEL_REQUESTS inputs.length
        (fun i => f (inputs.getD i "")) sched).length = inputs.length := by
  obtain ⟨hinv, _, _, hdone⟩ :=
    runSched_inv (fun i => f (inputs.getD i "")) PARALLEL_REQUESTS inputs.length
      (by decide) sched
  rw [h] at hdone
  simp only [Nat.min_self] at hdone
  obtain ⟨hlen, hadm, hresok, hmem⟩ := hinv
  have hemp :
      (runSched PARALLEL_REQUESTS inputs.length (fun i => f (inputs.getD i "")) sched).inFlight
        = [] := by
    apply List.length_eq_zero.mp
    omega
  have hall : ∀ i, i < inputs.length → ∃ r,
      (i, r) ∈ (runSched PARALLEL_REQUESTS inputs.length
        (fun i => f (inputs.getD i "")) sched).done := by
    intro i hi
    rcases (hmem i).mpr (by omega) with hin | hex
    · rw [hemp] at hin
      cases hin
    · exact hex
  have hLk : ∀ i, i < inputs.length →
      (runSched PARALLEL_REQUESTS inputs.length
        (fun i => f (inputs.getD i "")) sched).done.lookup i =
        some (f (inputs.getD i "")) :=
    fun i hi => lookup_done (fun i => f (inputs.getD i "")) _ i hresok (hall i hi)
  constructor
  · calc (List.range inputs.length).map
          (fun i => (runSched PARALLEL_REQUESTS inputs.length
            (fun i => f (inputs.getD i "")) sched).done.lookup i)
        = (List.range inputs.length).map (fun i => some (f (inputs.getD i ""))) :=
          range_map_congr inputs.length _ _ (fun i hi => hLk i hi)
      _ = inputs.map (fun ident => some (f ident)) :=
          map_getD_range (fun ident => some (f ident)) "" inputs
  · simp [collectOrdered]

/-- C1 witness: a two-element input with the completion order reversed
(schedule `[1, 0]` completes the second fetch first) still collects the
results in input order. -/
theorem c1_order_preservation_witness :
    collectOrdered PARALLEL_REQUESTS (["a/b", "c/d"] : List String).length
        (fun i => (["a/b", "c/d"] : List String).getD i "") [1, 0] =
      (["a/b", "c/d"] : List String).map (fun ident => some ident) ∧
    (collectOrdered PARALLEL_REQUESTS (["a/b", "c/d"] : List String).length
        (fun i => (["a/b", "c/d"] : List String).getD i "") [1, 0]).length =
      (["a/b", "c/d"] : List String).length :=
  c1_order_preservation String ["a/b", "c/d"] (fun s => s) [1, 0] rfl

end CheckVersions
